import Mathlib

/-!
# Verification of the cg-automation scraping and automation core

A shallow embedding, in Lean 4, of the pure/algorithmic core of the
cg-automation repository (`scraper_utils.py`, `playwright_manager.py`,
`automation_agent.py`), together with theorems settling the frozen claims
about it.

Strings from the Python side are modelled as `List Char`; Python `float`
values arising from decimal price text are modelled as `ℚ`; Python `dict`
(insertion ordered, value overwritten in place) is modelled as an
association list with an explicit `dictInsert`.
-/

namespace CgAutomation

/-- Characters of a Python string. -/
abbrev PyStr := List Char

/-- Python `str.lower()` (ASCII model). -/
def lowerStr (s : PyStr) : PyStr := s.map Char.toLower

/-- Python `str.strip()`: drop leading and trailing whitespace. -/
def trimStr (s : PyStr) : PyStr :=
  (((s.dropWhile Char.isWhitespace).reverse).dropWhile Char.isWhitespace).reverse

/-- Python `str.split(sep)` for a one-character separator: always returns at
least one (possibly empty) segment. -/
def splitOnChar (sep : Char) : PyStr → List PyStr
  | [] => [[]]
  | c :: rest =>
    if c = sep then [] :: splitOnChar sep rest
    else
      match splitOnChar sep rest with
      | r :: rs => (c :: r) :: rs
      | [] => [[c]]

/-- Python `part.split(':', 1)` guarded by `':' in part`: `none` when the
string holds no colon, otherwise the pieces left and right of the first
colon. -/
def splitFirstColon : PyStr → Option (PyStr × PyStr)
  | [] => none
  | c :: rest =>
    if c = ':' then some ([], rest)
    else (splitFirstColon rest).map (fun kv => (c :: kv.1, kv.2))

/-- Python `dict` assignment `d[k] = v`: overwrite the value in place when
the key is present, append otherwise (insertion order preserved). -/
def dictInsert (d : List (PyStr × PyStr)) (k v : PyStr) : List (PyStr × PyStr) :=
  if d.any (fun kv => decide (kv.1 = k)) then
    d.map (fun kv => if kv.1 = k then (kv.1, v) else kv)
  else d ++ [(k, v)]

/-- The `for part in parts` loop of `parse_query_string`
(src/scraper_utils.py l.104-113): segments with a colon are split at the
first colon and trimmed; a key equal to `model` (case-insensitively) sets
the model, any other key/value is written into the filter dict; colon-free
segments are skipped. -/
def parseLoop : List PyStr → Option PyStr → List (PyStr × PyStr) →
    Option PyStr × List (PyStr × PyStr)
  | [], m, f => (m, f)
  | part :: rest, m, f =>
    match splitFirstColon part with
    | none => parseLoop rest m f
    | some (k0, v0) =>
      let k := trimStr k0
      let v := trimStr v0
      if lowerStr k = "model".toList then parseLoop rest (some v) f
      else parseLoop rest m (dictInsert f k v)

/-- The structured-query marker `"Model:"` tested by
`parse_query_string` (src/scraper_utils.py l.94). -/
def modelMarker : PyStr := "Model:".toList

/-- `parse_query_string` (src/scraper_utils.py l.83-123): returns
`(model, filters, search_string)`.  A query without the literal substring
`"Model:"` is free text.  Otherwise the comma-separated segments are
stripped and folded by `parseLoop`; when the resulting model is truthy
(present and non-empty) the search string is the model followed by the
filter values joined with `", "`, and otherwise both the model and the
search string fall back to the raw query. -/
def parse_query_string (q : PyStr) : PyStr × List (PyStr × PyStr) × PyStr :=
  if modelMarker <:+: q then
    match parseLoop ((splitOnChar ',' q).map trimStr) none [] with
    | (some mv, filters) =>
      if mv ≠ [] then
        (mv, filters, List.intercalate ", ".toList (mv :: filters.map (fun kv => kv.2)))
      else (q, filters, q)
    | (none, filters) => (q, filters, q)
  else (q, [], q)

/-- The `(key, value)` pairs (both trimmed) of the colon-holding segments
of a segment list, in order — what the loop of `parse_query_string`
actually inspects. -/
def pairsOfParts (parts : List PyStr) : List (PyStr × PyStr) :=
  parts.filterMap fun p =>
    (splitFirstColon p).map fun kv => (trimStr kv.1, trimStr kv.2)

/-- Whether a parsed pair is the `Model` segment (case-insensitive key
comparison, as in src/scraper_utils.py l.110). -/
def isModelPair (kv : PyStr × PyStr) : Bool :=
  decide (lowerStr kv.1 = "model".toList)

/-- `parseLoop` re-expressed as a fold over the parsed pairs alone: the
model accumulator is overwritten by each `Model` pair, every other pair is
written into the filter dict. -/
def foldPairs : List (PyStr × PyStr) → Option PyStr → List (PyStr × PyStr) →
    Option PyStr × List (PyStr × PyStr)
  | [], m, f => (m, f)
  | kv :: rest, m, f =>
    if isModelPair kv then foldPairs rest (some kv.2) f
    else foldPairs rest m (dictInsert f kv.1 kv.2)

/-- The parsed pairs of a query: its comma-separated segments, stripped,
restricted to those holding a colon, split at the first colon and
trimmed. -/
def parsedPairs (q : PyStr) : List (PyStr × PyStr) :=
  pairsOfParts ((splitOnChar ',' q).map trimStr)

/-- The non-`Model` parsed pairs of a query, in order. -/
def nonModelPairs (q : PyStr) : List (PyStr × PyStr) :=
  (parsedPairs q).filter fun kv => !isModelPair kv

/-- The retention predicate of the spec (§4.5): a title is kept exactly
when the model/search string is a case-insensitive substring of it and no
exclusion term is. -/
def retainedTitle (needle : PyStr) (exclude : List PyStr) (title : PyStr) : Bool :=
  decide (lowerStr needle <:+: lowerStr title) &&
  !(exclude.any fun term => decide (lowerStr term <:+: lowerStr title))

/-- Python `text.split(' to ')[0]`, as used by `parse_price`: the part of
the string strictly left of the first occurrence of the pattern, or the
whole string when the pattern does not occur. -/
def takeUntilPat (pat : PyStr) : PyStr → PyStr
  | [] => []
  | c :: rest =>
    if pat <+: (c :: rest) then []
    else c :: takeUntilPat pat rest

/-- The cleaning step of `parse_price` (src/scraper_utils.py l.544):
remove every `£`, `,`, `(`, `)` character and strip whitespace. -/
def cleanPrice (s : PyStr) : PyStr :=
  trimStr (s.filter (fun c => !(c = '£' || c = ',' || c = '(' || c = ')')))

/-- The match of the regex `\d+\.?\d*` anchored at a string that starts
with a digit: the leading digit run, then at most one dot, then a further
digit run. -/
def numMatch (s : PyStr) : PyStr :=
  let d1 := s.takeWhile Char.isDigit
  match s.dropWhile Char.isDigit with
  | '.' :: r2 => d1 ++ '.' :: r2.takeWhile Char.isDigit
  | _ => d1

/-- `re.search(r'\d+\.?\d*', s)`: the first (leftmost) match of the numeric
pattern, or `none` when the string holds no digit. -/
def firstNum : PyStr → Option PyStr
  | [] => none
  | c :: rest => if c.isDigit then some (numMatch (c :: rest)) else firstNum rest

/-- Value of a digit string read in base 10. -/
def digitsVal (ds : PyStr) : ℕ :=
  ds.foldl (fun a c => 10 * a + (c.toNat - 48)) 0

/-- Python `float(m)` for a regex match `m` of shape `digits['.' digits]`,
modelled exactly as the rational it denotes. -/
def floatOfMatch (m : PyStr) : ℚ :=
  let ip := m.takeWhile Char.isDigit
  let fp := (m.dropWhile Char.isDigit).drop 1
  (digitsVal ip : ℚ) + (digitsVal fp : ℚ) / 10 ^ fp.length

/-- `parse_price` (src/scraper_utils.py l.533-554): keep the left side of a
`' to '` range, strip currency symbols, commas, parentheses and
whitespace, and return the first decimal-or-integer numeric substring as a
number, or `none` when no digit remains.  The function is total: the
Python `try/except` wrapper means no input ever raises to the caller. -/
def parse_price (text : PyStr) : Option ℚ :=
  (firstNum (cleanPrice (takeUntilPat " to ".toList text))).map floatOfMatch

/-- Python `min(prices)` over a list traversed left to right (`none` on an
empty list, where Python would raise; `summarise_prices` guards that
case). -/
def pyMin : List ℚ → Option ℚ
  | [] => none
  | x :: xs => some (xs.foldl min x)

/-- Python `max(prices)`. -/
def pyMax : List ℚ → Option ℚ
  | [] => none
  | x :: xs => some (xs.foldl max x)

/-- `statistics.median` on a non-empty list: sort, then take the middle
element (odd length) or the mean of the two central elements (even
length). -/
def statisticsMedian (ps : List ℚ) : ℚ :=
  let s := ps.insertionSort (· ≤ ·)
  let n := s.length
  if n % 2 = 1 then s.getD (n / 2) 0
  else (s.getD (n / 2 - 1) 0 + s.getD (n / 2) 0) / 2

/-- `summarise_prices` (src/scraper_utils.py l.573-579): `{Low, Mid, High}`
with all three absent on an empty list, else minimum, statistical median
and maximum. -/
def summarise_prices (prices : List ℚ) : Option ℚ × Option ℚ × Option ℚ :=
  if prices = [] then (none, none, none)
  else (pyMin prices, some (statisticsMedian prices), pyMax prices)

/-- `filter_listings` (src/scraper_utils.py l.557-570): walk
`zip(prices, titles)` and keep a price exactly when the search string is a
case-insensitive substring of the title and no exclusion term is. -/
def filter_listings (prices : List ℚ) (titles : List PyStr)
    (search_string : PyStr) (exclude : List PyStr) : List ℚ :=
  match prices, titles with
  | p :: ps, t :: ts =>
    let tl := lowerStr t
    if lowerStr search_string <:+: tl then
      if exclude.any (fun term => decide (lowerStr term <:+: tl)) then
        filter_listings ps ts search_string exclude
      else p :: filter_listings ps ts search_string exclude
    else filter_listings ps ts search_string exclude
  | _, _ => []

/-- One row of the in-scraper filtering block of `generic_scraper`
(src/scraper_utils.py l.273): `(price, title, store, url)`. -/
abbrev ScrapeRow := ℚ × PyStr × Option PyStr × Option PyStr

/-- The filtering block of `generic_scraper` (src/scraper_utils.py
l.270-281) applied to the zipped rows: a row survives exactly when the
model is a case-insensitive substring of its title and no exclusion term
is. -/
def generic_scraper_filter (rows : List ScrapeRow) (model : PyStr)
    (exclude : List PyStr) : List ScrapeRow :=
  match rows with
  | [] => []
  | row :: rest =>
    let tl := lowerStr row.2.1
    if lowerStr model <:+: tl then
      if exclude.any (fun term => decide (lowerStr term <:+: tl)) then
        generic_scraper_filter rest model exclude
      else row :: generic_scraper_filter rest model exclude
    else generic_scraper_filter rest model exclude

/-! ## Session manager (`playwright_manager.py`) -/

/-- The module-global state of `playwright_manager.py`: the optional
`playwright_instance`, `browser_instance` and `context_instance` handles
(handles modelled as numeric tags), plus instrumentation counters for the
externally visible effects of `connect_chromium`: how many browser
processes were launched via `subprocess.Popen`, how many CDP connection
attempts were made, and how many watchdog tasks were spawned. -/
structure PMState where
  playwright : Option ℕ
  browser : Option ℕ
  context : Option ℕ
  launches : ℕ
  connectAttempts : ℕ
  watchdogs : ℕ
deriving DecidableEq, Repr

/-- The fresh module state at import time (all handles `None`). -/
def initialPMState : PMState :=
  { playwright := none, browser := none, context := none,
    launches := 0, connectAttempts := 0, watchdogs := 0 }

/-- The environment `connect_chromium` runs in: whether the CDP attach
succeeds before launching a browser (`firstConnect`), and whether it
succeeds after the launch-and-settle retry (`secondConnect`); a successful
attach carries the context handle obtained. -/
structure CdpEnv where
  firstConnect : Option ℕ
  secondConnect : Option ℕ

/-- `connect_chromium` (src/playwright_manager.py l.30-79).  If both
`playwright_instance` and `context_instance` are set, the existing context
is returned with no further effect.  Otherwise the playwright runtime is
started, a CDP attach is attempted; on failure a browser is launched and
the attach retried exactly once; a second failure is fatal
(`Except.error`).  Each successful attach records the context and spawns a
watchdog task. -/
def connect_chromium (env : CdpEnv) (s : PMState) : Except String (ℕ × PMState) :=
  match s.playwright, s.context with
  | some _, some c => .ok (c, s)
  | _, _ =>
    let s1 : PMState := { s with playwright := some 1 }
    match env.firstConnect with
    | some c =>
      .ok (c, { s1 with browser := some c, context := some c,
                        connectAttempts := s1.connectAttempts + 1,
                        watchdogs := s1.watchdogs + 1 })
    | none =>
      let s2 : PMState := { s1 with connectAttempts := s1.connectAttempts + 1,
                                    launches := s1.launches + 1 }
      match env.secondConnect with
      | some c =>
        .ok (c, { s2 with browser := some c, context := some c,
                          connectAttempts := s2.connectAttempts + 1,
                          watchdogs := s2.watchdogs + 1 })
      | none => .error "Failed to launch/connect Chromium"

/-- Observable events of the watchdog loop `_watch_chromium_cdp`
(src/playwright_manager.py l.82-96): the 2-time-unit sleep, a successful
health poll, the hard process termination `os._exit(0)`, and the clean
loop exit printed when the shutdown flag is seen. -/
inductive WEvent where
  | sleepTwo : WEvent
  | pollOk : WEvent
  | hardExit : WEvent
  | watcherStopped : WEvent
deriving DecidableEq, Repr

/-- The watchdog loop `_watch_chromium_cdp` as an event trace.  `flag i`
is the value of `_shutdown_flag` read at the top of iteration `i`, and
`.poll i` tells whether the `i`-th health poll succeeds (HTTP 200 and no
connection error).  `fuel` truncates the potentially infinite loop.  Each
iteration first checks the flag, then sleeps 2 time-units, then polls;
a failed poll ends the trace at once with `hardExit`. -/
def watchSteps (flag poll : ℕ → Bool) : ℕ → ℕ → List WEvent
  | _, 0 => []
  | i, fuel + 1 =>
    if flag i then [.watcherStopped]
    else
      .sleepTwo ::
        (if poll i then .pollOk :: watchSteps flag poll (i + 1) fuel
         else [.hardExit])

/-- Number of occurrences of an event in a trace. -/
def countE (e : WEvent) (t : List WEvent) : ℕ :=
  (t.filter fun x => decide (x = e)).length

/-! ## Completion race detector (`automation_agent.py` l.186-231) -/

/-- How one observer coroutine of the completion race finishes: a normal
completion carrying its returned string, or an exception whose message is
re-raised by `.result()`. -/
inductive ObsOutcome where
  | completed : String → ObsOutcome
  | raised : String → ObsOutcome
deriving DecidableEq, Repr

/-- Which of the two racing tasks finishes first, together with its
outcome (`asyncio.wait(..., return_when=FIRST_COMPLETED)` resolving). -/
inductive RaceWinner where
  | saveTask : ObsOutcome → RaceWinner
  | navTask : ObsOutcome → RaceWinner
deriving DecidableEq, Repr

/-- The value `wait_for_save` returns on normal completion
(src/automation_agent.py l.191). -/
def wait_for_save_result : String := "saved"

/-- The value `wait_for_navigation` returns on normal completion
(src/automation_agent.py l.199). -/
def wait_for_navigation_result : String := "navigated_away"

/-- What the race block reports back: the `success`/`message` pair of the
endpoint result, plus which of the two tasks was cancelled (the `for task
in pending: task.cancel()` loop, l.211-212). -/
structure RaceReport where
  success : Bool
  message : String
  saveCancelled : Bool
  navCancelled : Bool
deriving DecidableEq, Repr

/-- The completion-race block of `launch_playwright_listing_persistent`
(src/automation_agent.py l.186-227).  The pending (losing) task is
cancelled before the winner's result is read; a result equal to `"saved"`
reports success, any other completed result reports the abandonment
failure, and an exception from the winning task is caught by the
surrounding `except` and reported as a failure message — the function is
total, so no exception propagates to the caller. -/
def detect_completion (w : RaceWinner) : RaceReport :=
  let oc := match w with
    | .saveTask o => (o, false, true)
    | .navTask o => (o, true, false)
  match oc.1 with
  | .raised m =>
    { success := false, message := "Listing failed — " ++ m,
      saveCancelled := oc.2.1, navCancelled := oc.2.2 }
  | .completed v =>
    if v = "saved" then
      { success := true, message := "Listing saved successfully.",
        saveCancelled := oc.2.1, navCancelled := oc.2.2 }
    else
      { success := false,
        message := "Listing failed — user navigated away before saving.",
        saveCancelled := oc.2.1, navCancelled := oc.2.2 }

/-! ## Scrape orchestrator (`scraper_utils.py` l.460-531) -/

/-- What one `_scrape_competitor` task hands back (besides the competitor
name): the parallel `prices`/`titles`/`store_names`/`urls` lists and the
per-source summary. -/
structure SourceResult where
  prices : List ℚ
  titles : List String
  stores : List (Option String)
  urls : List (Option String)
  summary : Option ℚ × Option ℚ × Option ℚ
deriving DecidableEq, Repr

/-- One element of the flat list `save_prices` returns. -/
structure AggListing where
  competitor : String
  title : String
  price : ℚ
  store : Option String
  url : Option String
  summary : Option ℚ × Option ℚ × Option ℚ
deriving DecidableEq, Repr

/-- Python `zip(prices, titles, store_names, urls)`: truncates to the
shortest list. -/
def zip4 (ps : List ℚ) (ts : List String) (ss us : List (Option String)) :
    List (ℚ × String × Option String × Option String) :=
  ps.zip (ts.zip (ss.zip us))

/-- The aggregation of `save_prices` (src/scraper_utils.py l.496-531):
one task per requested competitor (`extract` abstracts what
`_scrape_competitor` produces for a given competitor over the shared
context), results joined only after `asyncio.gather` completes, then each
source's rows appended in order, every row tagged with its competitor and
its source's own summary. -/
def save_prices (competitors : List String) (extract : String → SourceResult) :
    List AggListing :=
  (competitors.map (fun c => (c, extract c))).flatMap (fun cr =>
    (zip4 cr.2.prices cr.2.titles cr.2.stores cr.2.urls).map (fun row =>
      { competitor := cr.1, title := row.2.1, price := row.1,
        store := row.2.2.1, url := row.2.2.2, summary := cr.2.summary }))

/-- A concrete two-source extractor used to exercise the orchestrator on
closed inputs. -/
def demoExtract : String → SourceResult := fun c =>
  if c = "CEX" then
    { prices := [1, 2], titles := ["a", "b"], stores := [none, none],
      urls := [none, none], summary := (some 1, some 1, some 2) }
  else
    { prices := [5], titles := ["x"], stores := [some "s"], urls := [none],
      summary := (some 5, some 5, some 5) }

/-! ## Branch-to-store selection (`automation_agent.py` l.86-91, l.162) -/

/-- `BRANCH_TO_STORE` (src/automation_agent.py l.86-91). -/
def BRANCH_TO_STORE : List (String × String) :=
  [("Warrington", "4157a468-0220-45a4-bd51-e3dffe2ce7f0"),
   ("Netherton", "604d760c-7742-4861-ae64-344c3a343b07"),
   ("Wythenshawe", "2124b7c4-5013-424f-ad03-f49b0d2f4efa"),
   ("Toxteth", "289123c4-d483-4fc1-b36f-8c6534121f0d")]

/-- Python `d.get(k, default)` on an association list. -/
def dictGet (d : List (String × String)) (k dflt : String) : String :=
  match d.find? (fun kv => decide (kv.1 = k)) with
  | some kv => kv.2
  | none => dflt

/-- The store selection of `launch_playwright_listing_persistent`
(src/automation_agent.py l.162): `BRANCH_TO_STORE.get(branch,
"4157a468-0220-45a4-bd51-e3dffe2ce7f0")`, the hard-coded Warrington
fallback. -/
def store_id_for (branch : String) : String :=
  dictGet BRANCH_TO_STORE branch "4157a468-0220-45a4-bd51-e3dffe2ce7f0"

/-! ## Helper lemmas -/

theorem foldlMin_le_init (l : List ℚ) : ∀ b : ℚ, l.foldl min b ≤ b := by
  induction l with
  | nil => intro b; simp
  | cons y ys ih =>
    intro b
    calc List.foldl min b (y :: ys) = ys.foldl min (min b y) := rfl
      _ ≤ min b y := ih _
      _ ≤ b := min_le_left _ _

theorem foldlMin_le_mem (l : List ℚ) : ∀ b a : ℚ, a ∈ l → l.foldl min b ≤ a := by
  induction l with
  | nil => intro b a h; simp at h
  | cons y ys ih =>
    intro b a h
    rcases List.mem_cons.mp h with h1 | h2
    · subst h1
      calc List.foldl min b (a :: ys) = ys.foldl min (min b a) := rfl
        _ ≤ min b a := foldlMin_le_init _ _
        _ ≤ a := min_le_right _ _
    · exact ih (min b y) a h2

theorem foldlMin_le (x : ℚ) (xs : List ℚ) (a : ℚ) (h : a ∈ x :: xs) :
    xs.foldl min x ≤ a := by
  rcases List.mem_cons.mp h with h1 | h2
  · subst h1; exact foldlMin_le_init _ _
  · exact foldlMin_le_mem _ _ _ h2

theorem init_le_foldlMax (l : List ℚ) : ∀ b : ℚ, b ≤ l.foldl max b := by
  induction l with
  | nil => intro b; simp
  | cons y ys ih =>
    intro b
    calc b ≤ max b y := le_max_left _ _
      _ ≤ ys.foldl max (max b y) := ih _
      _ = List.foldl max b (y :: ys) := rfl

theorem mem_le_foldlMax (l : List ℚ) : ∀ b a : ℚ, a ∈ l → a ≤ l.foldl max b := by
  induction l with
  | nil => intro b a h; simp at h
  | cons y ys ih =>
    intro b a h
    rcases List.mem_cons.mp h with h1 | h2
    · subst h1
      calc a ≤ max b a := le_max_right _ _
        _ ≤ ys.foldl max (max b a) := init_le_foldlMax _ _
        _ = List.foldl max b (a :: ys) := rfl
    · exact ih (max b y) a h2

theorem le_foldlMax (x : ℚ) (xs : List ℚ) (a : ℚ) (h : a ∈ x :: xs) :
    a ≤ xs.foldl max x := by
  rcases List.mem_cons.mp h with h1 | h2
  · subst h1; exact init_le_foldlMax _ _
  · exact mem_le_foldlMax _ _ _ h2

theorem getD_mem_of_lt (l : List ℚ) : ∀ i : ℕ, i < l.length → l.getD i 0 ∈ l := by
  induction l with
  | nil => intro i h; simp at h
  | cons y ys ih =>
    intro i h
    cases i with
    | zero => simp [List.getD]
    | succ j =>
      have hj : j < ys.length := by simpa using h
      have := ih j hj
      simp [List.getD] at this ⊢
      exact Or.inr this

theorem firstNum_eq_none_iff (s : PyStr) :
    firstNum s = none ↔ ∀ c ∈ s, c.isDigit = false := by
  induction s with
  | nil => simp [firstNum]
  | cons c rest ih =>
    by_cases hc : c.isDigit
    · simp [firstNum, hc]
    · simp [firstNum, hc, ih]

theorem filter_listings_eq_filter (prices : List ℚ) :
    ∀ (titles : List PyStr) (ss : PyStr) (ex : List PyStr),
      filter_listings prices titles ss ex =
        ((prices.zip titles).filter fun pt => retainedTitle ss ex pt.2).map Prod.fst := by
  induction prices with
  | nil => intro titles ss ex; cases titles <;> simp [filter_listings]
  | cons p ps ih =>
    intro titles ss ex
    cases titles with
    | nil => simp [filter_listings]
    | cons t ts =>
      by_cases h1 : lowerStr ss <:+: lowerStr t
      · by_cases h2 : (ex.any fun term => decide (lowerStr term <:+: lowerStr t)) = true
        · simp [filter_listings, retainedTitle, h1, h2, ih]
        · simp [filter_listings, retainedTitle, h1, h2, ih]
      · simp [filter_listings, retainedTitle, h1, ih]

theorem generic_filter_eq_filter (rows : List ScrapeRow) :
    ∀ (model : PyStr) (ex : List PyStr),
      generic_scraper_filter rows model ex =
        rows.filter fun r => retainedTitle model ex r.2.1 := by
  induction rows with
  | nil => intro model ex; simp [generic_scraper_filter]
  | cons row rest ih =>
    intro model ex
    by_cases h1 : lowerStr model <:+: lowerStr row.2.1
    · by_cases h2 : (ex.any fun term => decide (lowerStr term <:+: lowerStr row.2.1)) = true
      · simp [generic_scraper_filter, retainedTitle, h1, h2, ih]
      · simp [generic_scraper_filter, retainedTitle, h1, h2, ih]
    · simp [generic_scraper_filter, retainedTitle, h1, ih]

theorem getLast?_cons_or {α : Type} (a : α) (l : List α) :
    (a :: l).getLast? = (l.getLast?).or (some a) := by
  induction l generalizing a with
  | nil => rfl
  | cons b l ih =>
    rw [List.getLast?_cons_cons, ih b]
    cases hl : l.getLast? <;> rfl

theorem watch_hardExit_count (flag poll : ℕ → Bool) :
    ∀ (fuel i : ℕ), countE .hardExit (watchSteps flag poll i fuel) ≤ 1 := by
  intro fuel
  induction fuel with
  | zero => intro i; simp [watchSteps, countE]
  | succ n ih =>
    intro i
    by_cases hf : flag i
    · simp [watchSteps, hf, countE]
    · by_cases hp : poll i
      · simpa [watchSteps, hf, hp, countE] using ih (i + 1)
      · simp [watchSteps, hf, hp, countE]

theorem watch_sleep_count (flag poll : ℕ → Bool) :
    ∀ (fuel i : ℕ),
      countE .sleepTwo (watchSteps flag poll i fuel) =
        countE .pollOk (watchSteps flag poll i fuel) +
          countE .hardExit (watchSteps flag poll i fuel) := by
  intro fuel
  induction fuel with
  | zero => intro i; simp [watchSteps, countE]
  | succ n ih =>
    intro i
    by_cases hf : flag i
    · simp [watchSteps, hf, countE]
    · by_cases hp : poll i
      · have := ih (i + 1)
        simp [watchSteps, hf, hp, countE] at this ⊢
        omega
      · simp [watchSteps, hf, hp, countE]

theorem watch_exit_is_last (flag poll : ℕ → Bool) :
    ∀ (fuel i : ℕ), WEvent.hardExit ∈ watchSteps flag poll i fuel →
      (watchSteps flag poll i fuel).getLast? = some .hardExit := by
  intro fuel
  induction fuel with
  | zero => intro i h; simp [watchSteps] at h
  | succ n ih =>
    intro i h
    by_cases hf : flag i
    · simp [watchSteps, hf] at h
    · by_cases hp : poll i
      · simp only [watchSteps, hf, if_false, Bool.false_eq_true, hp, if_true] at h ⊢
        have hmem : WEvent.hardExit ∈ watchSteps flag poll (i + 1) n := by
          simpa using h
        have hlast := ih (i + 1) hmem
        rw [getLast?_cons_or, getLast?_cons_or, hlast]
        rfl
      · simp [watchSteps, hf, hp]

theorem watch_flag_stops (flag poll : ℕ → Bool) (i fuel : ℕ) (hf : flag i = true)
    (hfuel : 0 < fuel) : watchSteps flag poll i fuel = [.watcherStopped] := by
  cases fuel with
  | zero => omega
  | succ n => simp [watchSteps, hf]

theorem parseLoop_eq_foldPairs (parts : List PyStr) :
    ∀ (m : Option PyStr) (f : List (PyStr × PyStr)),
      parseLoop parts m f = foldPairs (pairsOfParts parts) m f := by
  induction parts with
  | nil => intro m f; rfl
  | cons p rest ih =>
    intro m f
    cases hsp : splitFirstColon p with
    | none => simp [parseLoop, hsp, pairsOfParts, List.filterMap_cons, ih]
    | some kv =>
      by_cases hm : lowerStr (trimStr kv.1) = "model".toList
      · simp [parseLoop, hsp, pairsOfParts, List.filterMap_cons, foldPairs,
              isModelPair, hm, ih]
      · simp [parseLoop, hsp, pairsOfParts, List.filterMap_cons, foldPairs,
              isModelPair, hm, ih]

theorem foldPairs_fst (pairs : List (PyStr × PyStr)) :
    ∀ (m : Option PyStr) (f : List (PyStr × PyStr)),
      (foldPairs pairs m f).1 =
        (((pairs.filter isModelPair).map Prod.snd).getLast?).or m := by
  induction pairs with
  | nil => intro m f; rfl
  | cons kv rest ih =>
    intro m f
    by_cases hkv : isModelPair kv
    · rw [show foldPairs (kv :: rest) m f = foldPairs rest (some kv.2) f by
        simp [foldPairs, hkv]]
      rw [ih]
      simp only [List.filter_cons, hkv, if_true, List.map_cons, getLast?_cons_or]
      cases hl : ((rest.filter isModelPair).map Prod.snd).getLast? <;> rfl
    · rw [show foldPairs (kv :: rest) m f =
          foldPairs rest m (dictInsert f kv.1 kv.2) by simp [foldPairs, hkv]]
      rw [ih]
      simp [List.filter_cons, hkv]

theorem foldPairs_snd (pairs : List (PyStr × PyStr)) :
    ∀ (m : Option PyStr) (f : List (PyStr × PyStr)),
      (foldPairs pairs m f).2 =
        (pairs.filter fun kv => !isModelPair kv).foldl
          (fun d kv => dictInsert d kv.1 kv.2) f := by
  induction pairs with
  | nil => intro m f; rfl
  | cons kv rest ih =>
    intro m f
    by_cases hkv : isModelPair kv
    · rw [show foldPairs (kv :: rest) m f = foldPairs rest (some kv.2) f by
        simp [foldPairs, hkv]]
      rw [ih]
      simp [List.filter_cons, hkv]
    · rw [show foldPairs (kv :: rest) m f =
          foldPairs rest m (dictInsert f kv.1 kv.2) by simp [foldPairs, hkv]]
      rw [ih]
      simp [List.filter_cons, hkv]

theorem foldl_dictInsert_of_nodup (ps : List (PyStr × PyStr)) :
    ∀ d : List (PyStr × PyStr),
      (ps.map Prod.fst).Nodup →
      (∀ kv ∈ ps, ∀ kv2 ∈ d, kv2.1 ≠ kv.1) →
      ps.foldl (fun d kv => dictInsert d kv.1 kv.2) d = d ++ ps := by
  induction ps with
  | nil => intro d _ _; simp
  | cons kv rest ih =>
    intro d hnd hdisj
    have hnotin : (d.any fun kv2 => decide (kv2.1 = kv.1)) = false := by
      simp only [List.any_eq_false]
      intro kv2 hkv2
      simpa using hdisj kv (List.mem_cons_self _ _) kv2 hkv2
    have hins : dictInsert d kv.1 kv.2 = d ++ [(kv.1, kv.2)] := by
      simp [dictInsert, hnotin]
    have hnd1 : (kv.1 :: rest.map Prod.fst).Nodup := by simpa using hnd
    have hnd2 : (rest.map Prod.fst).Nodup := (List.nodup_cons.mp hnd1).2
    have hhead : kv.1 ∉ rest.map Prod.fst := (List.nodup_cons.mp hnd1).1
    have hdisj2 : ∀ kv3 ∈ rest, ∀ kv2 ∈ d ++ [(kv.1, kv.2)], kv2.1 ≠ kv3.1 := by
      intro kv3 h3 kv2 h2
      rcases List.mem_append.mp h2 with h2a | h2b
      · exact hdisj kv3 (List.mem_cons_of_mem _ h3) kv2 h2a
      · have : kv2 = (kv.1, kv.2) := by simpa using h2b
        subst this
        intro hcontra
        exact hhead (by
          simp only [List.mem_map]
          exact ⟨kv3, h3, hcontra.symm⟩)
    calc (kv :: rest).foldl (fun d kv => dictInsert d kv.1 kv.2) d
        = rest.foldl (fun d kv => dictInsert d kv.1 kv.2) (dictInsert d kv.1 kv.2) := rfl
      _ = rest.foldl (fun d kv => dictInsert d kv.1 kv.2) (d ++ [(kv.1, kv.2)]) := by
          rw [hins]
      _ = (d ++ [(kv.1, kv.2)]) ++ rest := ih (d ++ [(kv.1, kv.2)]) hnd2 hdisj2
      _ = d ++ (kv :: rest) := by simp

theorem zip4_length (ps : List ℚ) (ts : List String) (ss us : List (Option String))
    (ht : ts.length = ps.length) (hs : ss.length = ps.length)
    (hu : us.length = ps.length) : (zip4 ps ts ss us).length = ps.length := by
  simp [zip4, ht, hs, hu]

/-! ## Claims -/

/-- **C1**: In the completion race after form submission, whichever
observer resolves first determines the outcome: a first-resolved `saved`
reports success with the saved message and cancels the navigation
observer; a first-resolved `navigated_away` reports failure with the
abandonment message (and cancels the save observer); an exception raised
by the winning task is caught and reported as a failure result — and
since `detect_completion` is a total function into `RaceReport`, no
exception ever propagates to the caller.  The losing task is always the
one cancelled. -/
theorem C1_completion_race_spec :
    detect_completion (.saveTask (.completed wait_for_save_result)) =
      { success := true, message := "Listing saved successfully.",
        saveCancelled := false, navCancelled := true }
    ∧ detect_completion (.navTask (.completed wait_for_navigation_result)) =
      { success := false,
        message := "Listing failed — user navigated away before saving.",
        saveCancelled := true, navCancelled := false }
    ∧ (∀ m, detect_completion (.saveTask (.raised m)) =
        { success := false, message := "Listing failed — " ++ m,
          saveCancelled := false, navCancelled := true })
    ∧ (∀ m, detect_completion (.navTask (.raised m)) =
        { success := false, message := "Listing failed — " ++ m,
          saveCancelled := true, navCancelled := false })
    ∧ (∀ o, (detect_completion (.saveTask o)).navCancelled = true
          ∧ (detect_completion (.saveTask o)).saveCancelled = false
          ∧ (detect_completion (.navTask o)).saveCancelled = true
          ∧ (detect_completion (.navTask o)).navCancelled = false) := by
  refine ⟨rfl, rfl, fun m => rfl, fun m => rfl, fun o => ?_⟩
  cases o with
  | completed v => by_cases h : v = "saved" <;> simp [detect_completion, h]
  | raised m => exact ⟨rfl, rfl, rfl, rfl⟩

/-- **C5**: the price parser keeps the left side of a `' to '` range,
strips currency symbols/commas/parentheses, and returns the first
decimal-or-integer numeric substring, or `none` exactly when no digit
remains; it is a total function, so it never raises.  Concretely
`£188.95 ↦ 188.95`, `£188.95 to £219.95 ↦ 188.95`, and `N/A` and the
empty string parse to `none`. -/
theorem C5_parse_price_spec :
    parse_price "£188.95".toList = some ((3779 : ℚ) / 20)
    ∧ parse_price "£188.95 to £219.95".toList = some ((3779 : ℚ) / 20)
    ∧ parse_price "N/A".toList = none
    ∧ parse_price "".toList = none
    ∧ ∀ t : PyStr, parse_price t = none ↔
        ∀ c ∈ cleanPrice (takeUntilPat " to ".toList t), c.isDigit = false := by
  refine ⟨?_, ?_, by decide, by decide, ?_⟩
  · rw [show parse_price "£188.95".toList = some (floatOfMatch "188.95".toList)
      from rfl]
    rw [show floatOfMatch "188.95".toList =
        ((digitsVal "188".toList : ℚ) +
          (digitsVal "95".toList : ℚ) / 10 ^ ("95".toList).length) from rfl]
    rw [show digitsVal "188".toList = 188 from by decide]
    rw [show digitsVal "95".toList = 95 from by decide]
    norm_num
  · rw [show parse_price "£188.95 to £219.95".toList =
      some (floatOfMatch "188.95".toList) from rfl]
    rw [show floatOfMatch "188.95".toList =
        ((digitsVal "188".toList : ℚ) +
          (digitsVal "95".toList : ℚ) / 10 ^ ("95".toList).length) from rfl]
    rw [show digitsVal "188".toList = 188 from by decide]
    rw [show digitsVal "95".toList = 95 from by decide]
    norm_num
  intro t
  rw [show parse_price t =
      (firstNum (cleanPrice (takeUntilPat " to ".toList t))).map floatOfMatch from rfl]
  rw [← firstNum_eq_none_iff]
  cases firstNum (cleanPrice (takeUntilPat " to ".toList t)) <;> simp

/-- **C6**: the summariser returns all-absent on an empty list and
`{min, statistical median, max}` on a non-empty one, so `Low ≤ Mid ≤ High`
always holds for non-empty input; `summarise_prices [10, 20] = {10, 15, 20}`
(even-length median is the mean of the two central elements) and
`summarise_prices [5, 10, 15] = {5, 10, 15}`. -/
theorem C6_summariser_spec :
    summarise_prices [] = (none, none, none)
    ∧ summarise_prices [10, 20] = (some 10, some 15, some 20)
    ∧ summarise_prices [5, 10, 15] = (some 5, some 10, some 15)
    ∧ ∀ ps : List ℚ, ps ≠ [] →
        ∃ lo mid hi, summarise_prices ps = (some lo, some mid, some hi)
          ∧ lo ≤ mid ∧ mid ≤ hi := by
  refine ⟨by decide, ?_, ?_, ?_⟩
  · norm_num [summarise_prices, pyMin, pyMax, statisticsMedian,
      List.insertionSort, List.orderedInsert]
    intro h
    simp at h
  · norm_num [summarise_prices, pyMin, pyMax, statisticsMedian,
      List.insertionSort, List.orderedInsert]
    intro h
    simp at h
  intro ps hne
  rcases ps with _ | ⟨x, xs⟩
  · exact absurd rfl hne
  refine ⟨xs.foldl min x, statisticsMedian (x :: xs), xs.foldl max x, ?_, ?_, ?_⟩
  · simp [summarise_prices, pyMin, pyMax]
  · have hperm := List.perm_insertionSort (· ≤ · : ℚ → ℚ → Prop) (x :: xs)
    have hlen : ((x :: xs).insertionSort (· ≤ ·)).length = xs.length + 1 := by
      simpa using hperm.length_eq
    set s := (x :: xs).insertionSort (· ≤ ·) with hs
    have hbound : ∀ a ∈ s, xs.foldl min x ≤ a := by
      intro a ha
      exact foldlMin_le _ _ _ (hperm.mem_iff.mp ha)
    rw [statisticsMedian, ← hs]
    by_cases hpar : s.length % 2 = 1
    · simp only [hpar, if_true]
      exact hbound _ (getD_mem_of_lt s _ (Nat.div_lt_self (by omega) one_lt_two))
    · simp only [hpar, if_false]
      have h1 := hbound _ (getD_mem_of_lt s (s.length / 2 - 1)
        (by have := Nat.div_lt_self (show 0 < s.length by omega) one_lt_two; omega))
      have h2 := hbound _ (getD_mem_of_lt s (s.length / 2)
        (Nat.div_lt_self (by omega) one_lt_two))
      linarith
  · have hperm := List.perm_insertionSort (· ≤ · : ℚ → ℚ → Prop) (x :: xs)
    have hlen : ((x :: xs).insertionSort (· ≤ ·)).length = xs.length + 1 := by
      simpa using hperm.length_eq
    set s := (x :: xs).insertionSort (· ≤ ·) with hs
    have hbound : ∀ a ∈ s, a ≤ xs.foldl max x := by
      intro a ha
      exact le_foldlMax _ _ _ (hperm.mem_iff.mp ha)
    rw [statisticsMedian, ← hs]
    by_cases hpar : s.length % 2 = 1
    · simp only [hpar, if_true]
      exact hbound _ (getD_mem_of_lt s _ (Nat.div_lt_self (by omega) one_lt_two))
    · simp only [hpar, if_false]
      have h1 := hbound _ (getD_mem_of_lt s (s.length / 2 - 1)
        (by have := Nat.div_lt_self (show 0 < s.length by omega) one_lt_two; omega))
      have h2 := hbound _ (getD_mem_of_lt s (s.length / 2)
        (Nat.div_lt_self (by omega) one_lt_two))
      linarith

/-- Witness for C6: the non-empty clause instantiated at `[10, 20]`. -/
theorem C6_summariser_spec_witness :
    ∃ lo mid hi, summarise_prices [10, 20] = (some lo, some mid, some hi)
      ∧ lo ≤ mid ∧ mid ≤ hi :=
  C6_summariser_spec.2.2.2 [10, 20] (by decide)

/-- **C7**: with filtering applied, a listing survives if and only if the
model/search string is a case-insensitive substring of its title and no
caller-supplied exclusion term is — both in `filter_listings` and in the
in-scraper filtering block of `generic_scraper`; a title holding an
exclusion term is dropped even when the model matches. -/
theorem C7_filtering_spec :
    (∀ (prices : List ℚ) (titles : List PyStr) (model : PyStr) (ex : List PyStr),
        filter_listings prices titles model ex =
          ((prices.zip titles).filter fun pt => retainedTitle model ex pt.2).map
            Prod.fst)
    ∧ (∀ (rows : List ScrapeRow) (model : PyStr) (ex : List PyStr),
        generic_scraper_filter rows model ex =
          rows.filter fun r => retainedTitle model ex r.2.1)
    ∧ filter_listings [1] ["apple watch broken".toList] "apple watch".toList
        ["broken".toList] = [] :=
  ⟨fun prices => filter_listings_eq_filter prices,
   fun rows => generic_filter_eq_filter rows,
   by decide⟩

/-- **C10**: the store selected for the point-of-sale form is looked up in
`BRANCH_TO_STORE` with the Warrington identifier as hard-coded fallback,
so a missing, empty or unknown branch always yields the Warrington store
and the lookup never fails. -/
theorem C10_branch_fallback_spec :
    (∀ b : String, (∀ kv ∈ BRANCH_TO_STORE, kv.1 ≠ b) →
        store_id_for b = "4157a468-0220-45a4-bd51-e3dffe2ce7f0")
    ∧ store_id_for "" = "4157a468-0220-45a4-bd51-e3dffe2ce7f0"
    ∧ store_id_for "Warrington" = "4157a468-0220-45a4-bd51-e3dffe2ce7f0" := by
  refine ⟨?_, by decide, by decide⟩
  intro b hb
  have hnone : BRANCH_TO_STORE.find? (fun kv => decide (kv.1 = b)) = none := by
    rw [List.find?_eq_none]
    intro kv hkv
    simp [hb kv hkv]
  simp [store_id_for, dictGet, hnone]

/-- Witness for C10: the unknown branch `"Bolton"` falls back to the
Warrington store identifier. -/
theorem C10_branch_fallback_spec_witness :
    store_id_for "Bolton" = "4157a468-0220-45a4-bd51-e3dffe2ce7f0" :=
  C10_branch_fallback_spec.1 "Bolton" (by decide)

/-- **C4**: the watchdog sleeps 2 time-units before every poll (so the
sleep count equals the number of poll attempts) while the shutdown flag is
unset; a set flag stops the loop without polling; a single failed poll
ends the trace immediately with the unconditional hard process
termination — nothing follows it, there is no retry, and the hard exit
occurs at most once in any trace. -/
theorem C4_watchdog_spec :
    ∀ (flag poll : ℕ → Bool) (i fuel : ℕ),
      countE .hardExit (watchSteps flag poll i fuel) ≤ 1
      ∧ countE .sleepTwo (watchSteps flag poll i fuel) =
          countE .pollOk (watchSteps flag poll i fuel) +
            countE .hardExit (watchSteps flag poll i fuel)
      ∧ (WEvent.hardExit ∈ watchSteps flag poll i fuel →
          (watchSteps flag poll i fuel).getLast? = some .hardExit)
      ∧ (flag i = true → 0 < fuel →
          watchSteps flag poll i fuel = [.watcherStopped])
      ∧ (flag i = false → poll i = false → 0 < fuel →
          watchSteps flag poll i fuel = [.sleepTwo, .hardExit]) := by
  intro flag poll i fuel
  refine ⟨watch_hardExit_count flag poll fuel i, watch_sleep_count flag poll fuel i,
    watch_exit_is_last flag poll fuel i, watch_flag_stops flag poll i fuel, ?_⟩
  intro hf hp hfuel
  cases fuel with
  | zero => omega
  | succ n => simp [watchSteps, hf, hp]

/-- Witness for C4: with the flag never set and the second poll failing,
the trace ends in the hard exit. -/
theorem C4_watchdog_spec_witness :
    (watchSteps (fun _ => false) (fun i => decide (i = 0)) 0 3).getLast? =
      some WEvent.hardExit :=
  (C4_watchdog_spec (fun _ => false) (fun i => decide (i = 0)) 0 3).2.2.1
    (by decide)

/-- **C8**: `connect_chromium` is idempotent while a session is live: any
successful call yields a state from which a further call — under any
environment, hence attempting no connection and no launch — returns the
very same context handle and leaves the state unchanged. -/
theorem C8_acquire_idempotent_spec :
    ∀ (env : CdpEnv) (s : PMState) (c : ℕ) (s2 : PMState),
      connect_chromium env s = .ok (c, s2) →
      ∀ env2 : CdpEnv, connect_chromium env2 s2 = .ok (c, s2) := by
  intro env s c s2 h env2
  rcases s with ⟨p, b, ctx, l, ca, w⟩
  cases p <;> cases ctx
  case some.some pv cv =>
    simp only [connect_chromium] at h
    rcases h with ⟨rfl, rfl⟩
    simp [connect_chromium]
  all_goals
    cases hf : env.firstConnect with
    | some c1 =>
      simp only [connect_chromium, hf] at h
      rcases h with ⟨rfl, rfl⟩
      simp [connect_chromium]
    | none =>
      cases hs : env.secondConnect with
      | some c2 =>
        simp only [connect_chromium, hf, hs] at h
        rcases h with ⟨rfl, rfl⟩
        simp [connect_chromium]
      | none =>
        simp only [connect_chromium, hf, hs] at h
        exact Except.noConfusion h

/-- Witness for C8: after a first successful acquire from the fresh state,
a second acquire under an environment where every connection attempt would
fail still returns the same handle and state. -/
theorem C8_acquire_idempotent_spec_witness :
    connect_chromium ⟨none, none⟩
        { playwright := some 1, browser := some 7, context := some 7,
          launches := 0, connectAttempts := 1, watchdogs := 1 } =
      .ok (7,
        { playwright := some 1, browser := some 7, context := some 7,
          launches := 0, connectAttempts := 1, watchdogs := 1 }) :=
  C8_acquire_idempotent_spec ⟨some 7, none⟩ initialPMState 7 _ rfl ⟨none, none⟩

/-- **C2**: for a scrape over the requested sources, every aggregated
listing's source identifier is one of the requested identifiers and its
summary is the one its own source computed (never pooled); and when each
source's four parallel lists agree in length, the flat output length is
the sum over sources of the number of listings extracted. -/
theorem C2_aggregation_spec :
    ∀ (competitors : List String) (extract : String → SourceResult),
      (∀ l ∈ save_prices competitors extract,
          l.competitor ∈ competitors ∧ l.summary = (extract l.competitor).summary)
      ∧ ((∀ c ∈ competitors,
            (extract c).titles.length = (extract c).prices.length
            ∧ (extract c).stores.length = (extract c).prices.length
            ∧ (extract c).urls.length = (extract c).prices.length) →
          (save_prices competitors extract).length =
            (competitors.map fun c => (extract c).prices.length).sum) := by
  intro comps extract
  constructor
  · intro l hl
    simp only [save_prices, List.mem_flatMap, List.mem_map] at hl
    obtain ⟨⟨cc, r⟩, hcr, hrow⟩ := hl
    obtain ⟨row, _, hl⟩ := hrow
    obtain ⟨c0, hc0, hceq⟩ := hcr
    obtain ⟨hc1, hc2⟩ := Prod.mk.injEq .. ▸ hceq
    subst hc1
    subst hc2
    subst hl
    exact ⟨hc0, rfl⟩
  · intro hlen
    induction comps with
    | nil => simp [save_prices]
    | cons c cs ih =>
      have h1 := hlen c (List.mem_cons_self _ _)
      have h2 := ih (fun c2 hc2 => hlen c2 (List.mem_cons_of_mem _ hc2))
      simp only [save_prices, List.map_cons, List.flatMap_cons,
        List.length_append, List.length_map, List.sum_cons] at h2 ⊢
      rw [zip4_length _ _ _ _ h1.1 h1.2.1 h1.2.2, h2]

/-- Witness for C2: the orchestrator over two concrete sources returning
2 and 1 listings yields 3 listings. -/
theorem C2_aggregation_spec_witness :
    (save_prices ["CEX", "eBay"] demoExtract).length =
      ((["CEX", "eBay"]).map fun c => (demoExtract c).prices.length).sum :=
  (C2_aggregation_spec ["CEX", "eBay"] demoExtract).2 (by decide)

/-- **C3 (counterexample)**: a query spelling the marker in lower case
(`"model:"`) is NOT parsed as structured — it does not contain the exact
substring `"Model:"`, so the normalizer treats it as free text, returning
the whole string as model and search string with an empty filter map,
contrary to the claim's case-insensitive-marker reading. -/
theorem C3_query_normalizer_counterexample :
    parse_query_string "model: iPhone 15, Storage: 256GB".toList =
      ("model: iPhone 15, Storage: 256GB".toList, [],
        "model: iPhone 15, Storage: 256GB".toList)
    ∧ ¬ (modelMarker <:+: "model: iPhone 15, Storage: 256GB".toList) := by
  decide

/-- **C3 (amended)**: the structured path is taken exactly when the query
contains the case-SENSITIVE substring `"Model:"`; without it the whole
string is model and search string with an empty filter map.  On the
structured path (with a unique `Model` segment — the per-segment key
comparison IS case-insensitive — whose value is non-empty, and distinct
filter keys) the `Model` segment's value becomes the model, every other
`Key: Value` segment a filter entry in insertion order, and the search
string is the model followed by the filter values joined with `", "`. -/
theorem C3_query_normalizer_amended :
    (∀ q : PyStr, ¬ (modelMarker <:+: q) → parse_query_string q = (q, [], q))
    ∧ (∀ q k0 mv : PyStr, modelMarker <:+: q →
        (parsedPairs q).filter isModelPair = [(k0, mv)] →
        mv ≠ [] →
        ((nonModelPairs q).map Prod.fst).Nodup →
        parse_query_string q =
          (mv, nonModelPairs q,
            List.intercalate ", ".toList (mv :: (nonModelPairs q).map Prod.snd)))
    ∧ parse_query_string
        "Model: iPhone 15 Pro Max, Storage: 256GB, Color: Black".toList =
        ("iPhone 15 Pro Max".toList,
          [("Storage".toList, "256GB".toList), ("Color".toList, "Black".toList)],
          "iPhone 15 Pro Max, 256GB, Black".toList)
    ∧ parse_query_string "nintendo switch".toList =
        ("nintendo switch".toList, [], "nintendo switch".toList) := by
  refine ⟨?_, ?_, by decide, by decide⟩
  · intro q h
    simp [parse_query_string, h]
  · intro q k0 mv hmark hmodel hmv hnodup
    have hfst : (foldPairs (parsedPairs q) none []).1 = some mv := by
      rw [foldPairs_fst, hmodel]
      rfl
    have hsnd : (foldPairs (parsedPairs q) none []).2 = nonModelPairs q := by
      rw [foldPairs_snd]
      rw [show ((parsedPairs q).filter fun kv => !isModelPair kv) =
        nonModelPairs q from rfl]
      rw [foldl_dictInsert_of_nodup (nonModelPairs q) [] hnodup (by simp)]
      simp
    have hloop : parseLoop ((splitOnChar ',' q).map trimStr) none [] =
        (some mv, nonModelPairs q) := by
      rw [parseLoop_eq_foldPairs]
      rw [show pairsOfParts ((splitOnChar ',' q).map trimStr) =
        parsedPairs q from rfl]
      rw [Prod.ext_iff]
      exact ⟨hfst, hsnd⟩
    simp only [parse_query_string]
    rw [if_pos hmark, hloop]
    simp [hmv]

/-- Witness for C3 (amended): the structured clause applied to the spec's
worked example. -/
theorem C3_query_normalizer_amended_witness :
    parse_query_string
      "Model: iPhone 15 Pro Max, Storage: 256GB, Color: Black".toList =
      ("iPhone 15 Pro Max".toList,
        nonModelPairs
          "Model: iPhone 15 Pro Max, Storage: 256GB, Color: Black".toList,
        List.intercalate ", ".toList
          ("iPhone 15 Pro Max".toList ::
            (nonModelPairs
              "Model: iPhone 15 Pro Max, Storage: 256GB, Color: Black".toList).map
              Prod.snd)) :=
  C3_query_normalizer_amended.2.1
    "Model: iPhone 15 Pro Max, Storage: 256GB, Color: Black".toList
    "Model".toList "iPhone 15 Pro Max".toList
    (by decide) (by decide) (by decide) (by decide)

/-- **C9 (counterexample)**: in the structured query `"Model: , foo"` the
colon-free segment `"foo"` is skipped by the parsing loop, yet — because
the `Model` value is empty and the search string falls back to the whole
raw query — `"foo"` does appear in the resulting search string,
contradicting the claim. -/
theorem C9_colon_free_segments_counterexample :
    modelMarker <:+: "Model: , foo".toList
    ∧ "foo".toList ∈ (splitOnChar ',' "Model: , foo".toList).map trimStr
    ∧ splitFirstColon "foo".toList = none
    ∧ (parse_query_string "Model: , foo".toList).2.2 = "Model: , foo".toList
    ∧ "foo".toList <:+: (parse_query_string "Model: , foo".toList).2.2 := by
  decide

/-- **C9 (amended)**: colon-free segments are skipped by the segment loop
— deleting them changes neither the parsed model nor the filter map — so
they never become the model or a filter entry; but when the loop ends with
no model or an empty one, the returned model and search string fall back
to the entire raw query, in which a colon-free segment does still
appear. -/
theorem C9_colon_free_segments_amended :
    (∀ (parts : List PyStr) (m : Option PyStr) (f : List (PyStr × PyStr)),
        parseLoop (parts.filter fun p => (splitFirstColon p).isSome) m f =
          parseLoop parts m f)
    ∧ (∀ (q : PyStr) (fs : List (PyStr × PyStr)), modelMarker <:+: q →
        parseLoop ((splitOnChar ',' q).map trimStr) none [] = (none, fs) →
        parse_query_string q = (q, fs, q))
    ∧ (∀ (q : PyStr) (fs : List (PyStr × PyStr)), modelMarker <:+: q →
        parseLoop ((splitOnChar ',' q).map trimStr) none [] = (some [], fs) →
        parse_query_string q = (q, fs, q)) := by
  refine ⟨?_, ?_, ?_⟩
  · intro parts m f
    rw [parseLoop_eq_foldPairs, parseLoop_eq_foldPairs]
    have hpp : pairsOfParts (parts.filter fun p => (splitFirstColon p).isSome) =
        pairsOfParts parts := by
      induction parts with
      | nil => rfl
      | cons p rest ih =>
        cases hsp : splitFirstColon p with
        | none =>
          simp [pairsOfParts, List.filter_cons, List.filterMap_cons, hsp] at ih ⊢
          exact ih
        | some kv =>
          simp [pairsOfParts, List.filter_cons, List.filterMap_cons, hsp] at ih ⊢
          exact ih
    rw [hpp]
  · intro q fs hmark hloop
    simp only [parse_query_string]
    rw [if_pos hmark, hloop]
  · intro q fs hmark hloop
    simp only [parse_query_string]
    rw [if_pos hmark, hloop]
    simp

/-- Witness for C9 (amended): the empty-model fallback clause applied to
`"Model: , foo"`. -/
theorem C9_colon_free_segments_amended_witness :
    parse_query_string "Model: , foo".toList =
      ("Model: , foo".toList, [], "Model: , foo".toList) :=
  C9_colon_free_segments_amended.2.2 "Model: , foo".toList [] (by decide)
    (by decide)

end CgAutomation
